import Mathlib

/-!
Shallow embedding of the core of `gptcmd` (message/thread store, range
resolver, macro formatter and macro runner), translated from
`src/gptcmd/message.py`, `src/gptcmd/cli.py` and `src/gptcmd/macros.py`,
together with theorems settling the frozen claims about the program.
-/

namespace Gptcmd

/-! ## Data model (`message.py`) -/

/-- A Python list comprehension `[f(x) for x in l]` in which an exception
raised by `f` propagates: `none` when `f` fails on some element, otherwise
the list of results. -/
def optList {α β : Type} (f : α → Option β) : List α → Option (List β)
  | [] => some []
  | a :: rest =>
      match f a with
      | none => none
      | some b => (optList f rest).map (fun l => b :: l)

theorem optList_map_of_forall {α β : Type} (f : α → Option β) (g : β → α)
    (l : List β) (h : ∀ b ∈ l, f (g b) = some b) :
    optList f (l.map g) = some l := by
  induction l with
  | nil => rfl
  | cons b rest ih =>
      simp only [List.map_cons, optList, h b (by simp)]
      rw [ih (fun x hx => h x (by simp [hx]))]
      rfl

/-- `MessageRole` is the `StrEnum` of `message.py`; its string value is the
lower-case member name. -/
inductive MessageRole where
  | user
  | assistant
  | system
  deriving DecidableEq, Repr

def MessageRole.toStr : MessageRole → String
  | .user => "user"
  | .assistant => "assistant"
  | .system => "system"

/-- Model of the `MessageRole(value)` constructor call: succeeds exactly on
the three member values, raises (`none`) otherwise. -/
def MessageRole.ofString? : String → Option MessageRole
  | "user" => some .user
  | "assistant" => some .assistant
  | "system" => some .system
  | _ => none

/-- JSON-representable values, used for the opaque payloads the code passes
through untouched: message `metadata` and attachment `data` dicts. -/
inductive Jval where
  | jnull : Jval
  | jbool (b : Bool) : Jval
  | jnum (n : Int) : Jval
  | jstr (s : String) : Jval
  | jarr (xs : List Jval) : Jval
  | jobj (kvs : List (String × Jval)) : Jval

/-- A Python dict with string keys and JSON values, as an association list
(Python dicts are ordered; keys are unique in any dict the code builds). -/
abbrev Jdict : Type := List (String × Jval)

/-- The serialized form of a `MessageAttachment`, as returned by
`MessageAttachment.to_dict`: a discriminator tag (`d.get("type")`, hence
optional) and an opaque payload dict. -/
structure AttachmentRecord where
  type : Option String
  data : Jdict

/-- In-memory attachments. The two registered classes (`Image`, registered
as `"image_url"`, and `Audio`, registered as `"audio_url"`) are modelled by
the fields their `_serialize`/`_deserialize` pair touches; `unknown` is
`UnknownAttachment`, holding the tag and payload of a record whose tag was
not registered. -/
inductive MessageAttachment where
  | image (url : String) (detail : Option String)
  | audio (url : String)
  | unknown (type : Option String) (data : Jdict)

/-- The keys present in `attachment_type_registrar` after module load. -/
def registeredTags : List String := ["image_url", "audio_url"]

/-- `MessageAttachment.to_dict` (and `UnknownAttachment.to_dict`, which uses
the stored tag instead of the registrar, and `_serialize` of each class:
`Image` emits `"detail"` only when it is not `None`). -/
def MessageAttachment.toDict : MessageAttachment → AttachmentRecord
  | .image url detail =>
      ⟨some "image_url",
        ("url", .jstr url) ::
          (match detail with
            | some d => [("detail", .jstr d)]
            | none => [])⟩
  | .audio url => ⟨some "audio_url", [("url", .jstr url)]⟩
  | .unknown t d => ⟨t, d⟩

/-- `MessageAttachment.from_dict`: look the tag up in the registrar; on a
`KeyError` build an `UnknownAttachment` carrying tag and payload verbatim;
otherwise run the class's `_deserialize` (`d["url"]`, and for `Image` also
`d.get("detail")`). `none` models an exception escaping deserialization
(e.g. a registered tag whose payload lacks `"url"`). -/
def MessageAttachment.fromDict (r : AttachmentRecord) : Option MessageAttachment :=
  match r.type with
  | some "image_url" =>
      match List.lookup "url" r.data with
      | some (.jstr u) =>
          some (.image u
            (match List.lookup "detail" r.data with
              | some (.jstr d) => some d
              | _ => none))
      | _ => none
  | some "audio_url" =>
      match List.lookup "url" r.data with
      | some (.jstr u) => some (.audio u)
      | _ => none
  | t => some (.unknown t r.data)

/-- An attachment is well formed when, if it is an `UnknownAttachment`, its
stored tag is not a registered one. The code only ever creates
`UnknownAttachment`s from records whose tag failed registrar lookup, so
every attachment reachable in a run satisfies this. -/
def MessageAttachment.wf : MessageAttachment → Bool
  | .unknown t _ => !(t == some "image_url" || t == some "audio_url")
  | _ => true

/-- The `Message` dataclass of `message.py`. -/
structure Message where
  content : String
  role : MessageRole
  name : Option String
  sticky : Bool
  attachments : List MessageAttachment
  metadata : Jdict

/-- The dict `Message.to_dict` returns: every dataclass field, with
`attachments` serialized elementwise (`role` is a `StrEnum`, i.e. its
string value). -/
structure MessageRecord where
  content : String
  role : String
  name : Option String
  sticky : Bool
  attachments : List AttachmentRecord
  metadata : Jdict

def Message.toDict (m : Message) : MessageRecord :=
  ⟨m.content, m.role.toStr, m.name, m.sticky,
    m.attachments.map MessageAttachment.toDict, m.metadata⟩

/-- `Message.from_dict`: rebuild each field from the record
(`attachments` via `MessageAttachment.from_dict`, `role` via the
`MessageRole` constructor); other keys are passed to the dataclass
constructor unchanged. -/
def Message.fromDict (r : MessageRecord) : Option Message :=
  match MessageRole.ofString? r.role with
  | none => none
  | some role =>
      match optList MessageAttachment.fromDict r.attachments with
      | none => none
      | some atts =>
          some ⟨r.content, role, r.name, r.sticky, atts, r.metadata⟩

def Message.wf (m : Message) : Bool :=
  m.attachments.all MessageAttachment.wf

/-- The `MessageThread` class: a display name, the ordered message list, a
per-role display-name map, and the `dirty` flag. -/
structure MessageThread where
  name : String
  messages : List Message
  names : List (MessageRole × String)
  dirty : Bool

def MessageThread.wf (t : MessageThread) : Bool :=
  t.messages.all Message.wf

/-- The dict `MessageThread.to_dict` returns: the serialized message list
and a copy of the name map (whose keys, `MessageRole` members, serialize
as their string values). -/
structure ThreadRecord where
  messages : List MessageRecord
  names : List (String × String)

def MessageThread.toDict (t : MessageThread) : ThreadRecord :=
  ⟨t.messages.map Message.toDict, t.names.map (fun p => (p.1.toStr, p.2))⟩

/-- `MessageThread.from_dict`: deserialize each message, convert name-map
keys back through the `MessageRole` constructor (skipped when the map is
falsy, i.e. empty), and build a thread with the given name; the
constructor copies each message (`dataclasses.replace`, the identity on
field values) and starts with `dirty = False`. -/
def MessageThread.fromDict (r : ThreadRecord) (name : String) :
    Option MessageThread :=
  match optList Message.fromDict r.messages with
  | none => none
  | some msgs =>
      match
        (if r.names.isEmpty then some []
          else optList
            (fun p => (MessageRole.ofString? p.1).map (fun q => (q, p.2)))
            r.names) with
      | none => none
      | some names => some ⟨name, msgs, names, false⟩

/-! ### Round-trip lemmas for claim C5 -/

theorem roleOfString_toStr (r : MessageRole) :
    MessageRole.ofString? r.toStr = some r := by
  cases r <;> rfl

theorem attachment_roundtrip (a : MessageAttachment) (h : a.wf = true) :
    MessageAttachment.fromDict a.toDict = some a := by
  cases a with
  | image url detail =>
      cases detail <;>
        simp [MessageAttachment.toDict, MessageAttachment.fromDict,
          List.lookup]
  | audio url =>
      simp [MessageAttachment.toDict, MessageAttachment.fromDict,
        List.lookup]
  | unknown t d =>
      simp only [MessageAttachment.wf, Bool.not_eq_true'] at h
      rw [Bool.or_eq_false_iff] at h
      obtain ⟨h1, h2⟩ := h
      have ht1 : t ≠ some "image_url" := by
        intro hc; subst hc; simp at h1
      have ht2 : t ≠ some "audio_url" := by
        intro hc; subst hc; simp at h2
      cases t with
      | none => rfl
      | some s =>
          have hs1 : s ≠ "image_url" := by
            intro hc; exact ht1 (by rw [hc])
          have hs2 : s ≠ "audio_url" := by
            intro hc; exact ht2 (by rw [hc])
          show MessageAttachment.fromDict ⟨some s, d⟩
            = some (.unknown (some s) d)
          unfold MessageAttachment.fromDict
          split
          · next heq => exact absurd (by injection heq) hs1
          · next heq => exact absurd (by injection heq) hs2
          · rfl

theorem attachments_roundtrip (l : List MessageAttachment)
    (h : l.all MessageAttachment.wf = true) :
    optList MessageAttachment.fromDict (l.map MessageAttachment.toDict)
      = some l := by
  refine optList_map_of_forall _ _ _ (fun a ha => ?_)
  exact attachment_roundtrip a (List.all_eq_true.mp h a ha)

theorem message_roundtrip (m : Message) (h : m.wf = true) :
    Message.fromDict m.toDict = some m := by
  unfold Message.wf at h
  simp [Message.toDict, Message.fromDict, roleOfString_toStr,
    attachments_roundtrip m.attachments h]

theorem messages_roundtrip (l : List Message)
    (h : l.all Message.wf = true) :
    optList Message.fromDict (l.map Message.toDict) = some l := by
  refine optList_map_of_forall _ _ _ (fun m hm => ?_)
  exact message_roundtrip m (List.all_eq_true.mp h m hm)

theorem names_roundtrip (l : List (MessageRole × String)) :
    optList (fun p => (MessageRole.ofString? p.1).map (fun q => (q, p.2)))
        (l.map (fun p => (p.1.toStr, p.2)))
      = some l := by
  refine optList_map_of_forall _ _ _ (fun p _ => ?_)
  rw [roleOfString_toStr]
  rfl

/-- **C5.** Deserializing a serialized thread (`from_dict` of `to_dict`)
reproduces an equal ordered message list (all fields, attachments and
metadata included) and an equal per-role name map; and a record whose
discriminator tag is not registered deserializes to a passthrough
`UnknownAttachment` that re-serializes to the identical record. -/
theorem thread_serialization_roundtrip :
    (∀ t : MessageThread, t.wf = true →
      MessageThread.fromDict t.toDict t.name
        = some ⟨t.name, t.messages, t.names, false⟩)
    ∧ (∀ (ty : Option String) (d : Jdict),
        (∀ s ∈ registeredTags, ty ≠ some s) →
        MessageAttachment.fromDict ⟨ty, d⟩
            = some (.unknown ty d)
          ∧ (MessageAttachment.unknown ty d).toDict = ⟨ty, d⟩) := by
  constructor
  · intro t hwf
    unfold MessageThread.wf at hwf
    simp only [MessageThread.toDict, MessageThread.fromDict]
    rw [messages_roundtrip t.messages hwf]
    rcases hn : t.names with _ | ⟨p, rest⟩
    · simp
    · rw [← hn]
      have he : ((t.names.map
          (fun p => (p.1.toStr, p.2))).isEmpty) = false := by
        rw [hn]; simp
      simp only [he, if_neg, Bool.false_eq_true, not_false_iff]
      rw [names_roundtrip t.names]
  · intro ty d hreg
    have h1 : ty ≠ some "image_url" := hreg _ (by simp [registeredTags])
    have h2 : ty ≠ some "audio_url" := hreg _ (by simp [registeredTags])
    constructor
    · have hwf : (MessageAttachment.unknown ty d).wf = true := by
        simp only [MessageAttachment.wf, Bool.not_eq_true']
        rw [Bool.or_eq_false_iff]
        constructor
        · cases ty with
          | none => rfl
          | some s =>
              simp only [Option.some_beq_some]
              exact decide_eq_false (fun hc => h1 (by rw [hc]))
        · cases ty with
          | none => rfl
          | some s =>
              simp only [Option.some_beq_some]
              exact decide_eq_false (fun hc => h2 (by rw [hc]))
      have := attachment_roundtrip (.unknown ty d) hwf
      simpa [MessageAttachment.toDict] using this
    · rfl

/-- Witness for C5 at concrete inputs: a one-message thread carrying an
unregistered attachment round-trips, and the unregistered record passes
through verbatim. -/
theorem thread_serialization_roundtrip_witness :
    MessageThread.fromDict
        (MessageThread.toDict
          ⟨"t",
            [⟨"hi", .user, some "Bill", true,
              [.unknown (some "mystery") [("k", .jnum 3)]],
              [("note", .jstr "x")]⟩],
            [(.assistant, "Mila")], true⟩) "t"
      = some ⟨"t",
          [⟨"hi", .user, some "Bill", true,
            [.unknown (some "mystery") [("k", .jnum 3)]],
            [("note", .jstr "x")]⟩],
          [(.assistant, "Mila")], false⟩
    ∧ MessageAttachment.fromDict ⟨some "mystery", [("k", .jnum 3)]⟩
        = some (.unknown (some "mystery") [("k", .jnum 3)]) := by
  refine ⟨?_, ?_⟩
  · exact thread_serialization_roundtrip.1 _ (by rfl)
  · exact (thread_serialization_roundtrip.2 (some "mystery") [("k", .jnum 3)]
      (by intro s hs; fin_cases hs <;> simp)).1

/-! ## Thread mutation operations (`message.py`) -/

/-- Python's normalization of an integer index into a list of length `len`
(`lst[n]`, `lst.pop(n)`): a negative index counts from the end; `none`
models the `IndexError` raised when the index is out of range. -/
def pyNormIdx (len : Nat) (n : Int) : Option Nat :=
  if n < 0 then
    if 0 ≤ n + len then some (n + len).toNat else none
  else
    if n < len then some n.toNat else none

/-- The two exceptions `MessageThread.pop` can raise: `IndexError` from the
list subscript, and `PopStickyMessageError`. -/
inductive PopError where
  | indexOutOfRange
  | stickyViolation
  deriving DecidableEq, Repr

/-- `MessageThread.pop(n)`: `n` defaults to `-1`; the subscript
`self._messages[n]` raises `IndexError` when absent; a sticky target raises
`PopStickyMessageError` before any removal; otherwise the message is
removed and the thread marked dirty. The returned thread is the thread's
state when the call finishes (unchanged on either failure, since both
checks precede the removal). -/
def MessageThread.pop (t : MessageThread) (n? : Option Int) :
    Except PopError Message × MessageThread :=
  let n := n?.getD (-1)
  match pyNormIdx t.messages.length n with
  | none => (.error .indexOutOfRange, t)
  | some i =>
      match t.messages.get? i with
      | none => (.error .indexOutOfRange, t)
      | some m =>
          if m.sticky then (.error .stickyViolation, t)
          else (.ok m,
            { t with messages := t.messages.eraseIdx i, dirty := true })

/-- `MessageThread.clear`: `self._messages = self.stickys` after setting
`dirty = True` whenever the current list is non-empty (`if self._messages`). -/
def MessageThread.clear (t : MessageThread) : MessageThread :=
  { t with
    messages := t.messages.filter (fun m => m.sticky),
    dirty := if t.messages.isEmpty then t.dirty else true }

/-- Python's index clamping for `list.insert(j, x)`: a negative `j` counts
from the end and is clamped to `0`; a large `j` is clamped to the length. -/
def pyInsertIdx (len : Nat) (j : Int) : Nat :=
  if j < 0 then
    if 0 ≤ j + len then (j + len).toNat else 0
  else min j.toNat len

/-- `MessageThread.move(i, j)`: `pop(i)` (propagating its failures, which
leave the thread unchanged), then insert the popped message at `j`
(`None` means the new length, i.e. append at end). -/
def MessageThread.move (t : MessageThread) (i? j? : Option Int) :
    Except PopError Message × MessageThread :=
  match t.pop i? with
  | (.error e, t') => (.error e, t')
  | (.ok m, t') =>
      let j : Int := j?.getD (t'.messages.length : Int)
      (.ok m,
        { t' with
          messages :=
            t'.messages.insertIdx (pyInsertIdx t'.messages.length j) m })

/-- **C1.** Popping (or moving, whose removal step is `pop`) a sticky
message raises `StickyViolation` (`PopStickyMessageError`) and leaves the
thread unchanged — in particular its message count and order; popping an
absent index raises `IndexOutOfRange` (`IndexError`) with the thread
likewise unchanged; and `pop` with no index targets the last message
(index `-1`). -/
theorem pop_sticky_and_bounds :
    (∀ (t : MessageThread) (i? j? : Option Int) (i : Nat) (m : Message),
      pyNormIdx t.messages.length (i?.getD (-1)) = some i →
      t.messages.get? i = some m →
      m.sticky = true →
      t.pop i? = (.error .stickyViolation, t)
        ∧ t.move i? j? = (.error .stickyViolation, t))
    ∧ (∀ (t : MessageThread) (i? : Option Int),
        pyNormIdx t.messages.length (i?.getD (-1)) = none →
        t.pop i? = (.error .indexOutOfRange, t))
    ∧ (∀ t : MessageThread, t.pop none = t.pop (some (-1)))
    ∧ (∀ t : MessageThread, t.messages ≠ [] →
        pyNormIdx t.messages.length (-1) = some (t.messages.length - 1)) := by
  refine ⟨?_, ?_, ?_, ?_⟩
  · intro t i? j? i m hnorm hget hsticky
    have hpop : t.pop i? = (.error .stickyViolation, t) := by
      unfold MessageThread.pop
      simp only [hnorm, hget, hsticky, if_pos]
    exact ⟨hpop, by unfold MessageThread.move; rw [hpop]⟩
  · intro t i? hnorm
    unfold MessageThread.pop
    simp only [hnorm]
  · intro t
    rfl
  · intro t hne
    have hlen : 1 ≤ t.messages.length := by
      cases hm : t.messages with
      | nil => exact absurd hm hne
      | cons a l => simp [hm]
    unfold pyNormIdx
    have h1 : (-1 : Int) < 0 := by norm_num
    have h2 : (0 : Int) ≤ -1 + t.messages.length := by omega
    rw [if_pos h1, if_pos h2]
    congr 1
    omega

/-- A concrete two-message thread (first message sticky) used to witness C1. -/
def c1Thread : MessageThread :=
  ⟨"t", [⟨"a", .user, none, true, [], []⟩,
         ⟨"b", .assistant, none, false, [], []⟩], [], false⟩

/-- Witness for C1: on the thread `[sticky "a", "b"]`, `pop 0` and
`move 0 1` fail with `StickyViolation` leaving the thread unchanged,
`pop 5` fails with `IndexOutOfRange`, and the no-index `pop` targets
index `-1`, i.e. the last of the two messages. -/
theorem pop_sticky_and_bounds_witness :
    c1Thread.pop (some 0) = (.error .stickyViolation, c1Thread)
    ∧ c1Thread.move (some 0) (some 1) = (.error .stickyViolation, c1Thread)
    ∧ c1Thread.pop (some 5) = (.error .indexOutOfRange, c1Thread)
    ∧ pyNormIdx c1Thread.messages.length (-1) = some 1 := by
  have h1 := pop_sticky_and_bounds.1 c1Thread (some 0) (some 1) 0
    ⟨"a", .user, none, true, [], []⟩ rfl rfl rfl
  refine ⟨h1.1, h1.2, ?_, ?_⟩
  · exact pop_sticky_and_bounds.2.1 c1Thread (some 5) rfl
  · have := pop_sticky_and_bounds.2.2.2 c1Thread (by simp [c1Thread])
    simpa [c1Thread] using this

/-- **C6 counterexample.** On a thread holding one sticky message with
`dirty = False`, `clear()` removes nothing (the list is unchanged) yet
sets `dirty = True`, refuting "a thread whose messages are all sticky is
not newly dirtied by a clear that removes nothing". -/
theorem clear_all_sticky_dirties :
    (MessageThread.clear
        ⟨"t", [⟨"a", .user, none, true, [], []⟩], [], false⟩).messages
      = [⟨"a", .user, none, true, [], []⟩]
    ∧ (MessageThread.clear
        ⟨"t", [⟨"a", .user, none, true, [], []⟩], [], false⟩).dirty = true :=
  ⟨rfl, rfl⟩

/-- **C6 (amended).** `clear()` replaces the message list with exactly its
sticky subset preserving relative order, and sets `dirty` whenever the
list was non-empty before the call — even when every message is sticky and
nothing is removed; only a clear of an already-empty thread leaves the
dirty flag unchanged. -/
theorem clear_keeps_sticky_subset :
    ∀ t : MessageThread,
      t.clear.messages = t.messages.filter (fun m => m.sticky)
      ∧ (t.messages ≠ [] → t.clear.dirty = true)
      ∧ (t.messages = [] → t.clear.dirty = t.dirty)
      ∧ (t.messages = [⟨"a", .user, none, false, [], []⟩,
                       ⟨"b", .assistant, none, true, [], []⟩,
                       ⟨"c", .user, none, false, [], []⟩] →
          t.clear.messages = [⟨"b", .assistant, none, true, [], []⟩]) := by
  intro t
  refine ⟨rfl, ?_, ?_, ?_⟩
  · intro hne
    unfold MessageThread.clear
    simp [List.isEmpty_iff, hne]
  · intro he
    unfold MessageThread.clear
    simp [he]
  · intro hm
    show t.messages.filter (fun m => m.sticky) = _
    rw [hm]
    rfl

/-! ## Range Resolver (`cli.py`, `Gptcmd._user_range_to_python_range`) -/

/-- Parse a non-empty all-digit character run as a natural number;
`none` when empty or a non-digit appears. -/
def pyDigitsGo (acc : Nat) : List Char → Option Nat
  | [] => some acc
  | c :: cs =>
      if c.isDigit then pyDigitsGo (acc * 10 + (c.toNat - 48)) cs
      else none

def pyDigits? : List Char → Option Nat
  | [] => none
  | cs => pyDigitsGo 0 cs

/-- Model of Python's `int(token)` on a whitespace-free token: an optional
sign followed by at least one digit; `none` models the `ValueError`. -/
def pyInt? (s : String) : Option Int :=
  match s.data with
  | '-' :: rest => (pyDigits? rest).map (fun n => -(n : Int))
  | '+' :: rest => (pyDigits? rest).map (fun n => (n : Int))
  | cs => (pyDigits? cs).map (fun n => (n : Int))

/-- Model of Python's `str.split()` with no separator: split on runs of
whitespace, dropping empty pieces. -/
def pySplitAux : List Char → List Char → List String
  | [], acc => if acc.isEmpty then [] else [String.mk acc.reverse]
  | c :: cs, acc =>
      if c.isWhitespace then
        if acc.isEmpty then pySplitAux cs []
        else String.mk acc.reverse :: pySplitAux cs []
      else pySplitAux cs (c :: acc)

def pyStrSplit (s : String) : List String := pySplitAux s.data []

/-- The `ValueError`s `_user_range_to_python_range` can raise, by message. -/
inductive RangeError where
  | noIndices
  | wrongNumberOfIndices
  | invalidInt
  | endNotBeyondStart
  deriving DecidableEq, Repr

/-- The inner `_convert` of `_user_range_to_python_range`: `.` is an open
bound; a start is decremented when positive and kept when negative; an end
is kept when positive (making the bound exclusive), `-1` becomes open, and
any other negative value is incremented. -/
def convertToken (token : String) (isStart : Bool) :
    Except RangeError (Option Int) :=
  if token = "." then .ok none
  else
    match pyInt? token with
    | none => .error .invalidInt
    | some val =>
        if isStart then .ok (some (if val > 0 then val - 1 else val))
        else
          if val > 0 then .ok (some val)
          else if val = -1 then .ok none
          else .ok (some (val + 1))

/-- The final strict-range check: with both bounds finite and
`start ≥ end`, raise "Range end is beyond its start". -/
def finishStrict (strictRange : Bool) (ps pe : Option Int) :
    Except RangeError (Option Int × Option Int) :=
  match ps, pe with
  | some a, some b =>
      if strictRange ∧ b ≤ a then .error .endNotBeyondStart
      else .ok (some a, some b)
  | _, _ => .ok (ps, pe)

/-- `Gptcmd._user_range_to_python_range(ref, allow_single, strict_range)`:
tokenize, dispatch on the token count (a bare `.` short-circuits before
the `allow_single` check), convert each token, apply the single-token
fixup (`-1` becomes open-ended, any other converted start `v` gets end
`v + 1`), and run the strict check. -/
def userRangeToPythonRange (ref : String) (allowSingle : Bool)
    (strictRange : Bool) : Except RangeError (Option Int × Option Int) :=
  match pyStrSplit ref with
  | [] => .error .noIndices
  | [t] =>
      if t = "." then .ok (none, none)
      else if !allowSingle then .error .wrongNumberOfIndices
      else
        match convertToken t true, convertToken t false with
        | .ok ps, .ok pe =>
            finishStrict strictRange ps
              (if ps = some (-1) then none
                else
                  match ps with
                  | some v => some (v + 1)
                  | none => pe)
        | .error e, _ => .error e
        | _, .error e => .error e
  | [s, e] =>
      match convertToken s true, convertToken e false with
      | .ok ps, .ok pe => finishStrict strictRange ps pe
      | .error err, _ => .error err
      | _, .error err => .error err
  | _ => .error .wrongNumberOfIndices

/-- Python's normalization of one optional slice bound over a list of
length `len` (`dflt` is the value used for an omitted bound). -/
def pySliceBound (len : Nat) (dflt : Nat) : Option Int → Nat
  | none => dflt
  | some i => if i < 0 then (i + len).toNat else min i.toNat len

/-- Python's `xs[s:e]` on a list. -/
def pySlice {α : Type} (xs : List α) (s e : Option Int) : List α :=
  (xs.take (pySliceBound xs.length xs.length e)).drop
    (pySliceBound xs.length 0 s)

theorem pyInt?_ne_dot {t : String} {a : Int} (h : pyInt? t = some a) :
    t ≠ "." := by
  intro hc
  rw [hc] at h
  simp [pyInt?, pyDigits?, pyDigitsGo] at h

theorem convertToken_start_pos {t : String} {a : Int}
    (h : pyInt? t = some a) (ha : 0 < a) :
    convertToken t true = .ok (some (a - 1)) := by
  unfold convertToken
  rw [if_neg (pyInt?_ne_dot h), h]
  simp [ha]

theorem convertToken_end_pos {t : String} {b : Int}
    (h : pyInt? t = some b) (hb : 0 < b) :
    convertToken t false = .ok (some b) := by
  unfold convertToken
  rw [if_neg (pyInt?_ne_dot h), h]
  simp [hb]

/-- **C2.** For every two-token range reference with positive 1-based
integer tokens `a` and `b` where `a < b`, the resolver returns the
half-open pair `(a-1, b)`, and slicing a message sequence holding at least
`b` messages with that pair yields exactly messages `a..b` inclusive in
1-based coordinates: the slice has `b - a + 1` elements and its `k`-th
element (0-based) is the thread's message at 0-based position `a - 1 + k`. -/
theorem two_token_range_resolution :
    ∀ (ref t1 t2 : String) (a b : Int),
      pyStrSplit ref = [t1, t2] →
      pyInt? t1 = some a → pyInt? t2 = some b →
      0 < a → a < b →
      userRangeToPythonRange ref true true = .ok (some (a - 1), some b)
      ∧ ∀ ms : List Message, b ≤ (ms.length : Int) →
          (pySlice ms (some (a - 1)) (some b)).length = (b - (a - 1)).toNat
          ∧ ∀ k : Nat, (k : Int) < b - (a - 1) →
              (pySlice ms (some (a - 1)) (some b))[k]?
                = ms[((a - 1).toNat + k)]? := by
  intro ref t1 t2 a b hsplit h1 h2 ha hab
  have hc1 := convertToken_start_pos h1 ha
  have hc2 := convertToken_end_pos h2 (lt_trans ha hab)
  constructor
  · simp only [userRangeToPythonRange, hsplit, hc1, hc2, finishStrict]
    rw [if_neg (by omega)]
  · intro ms hb
    have hslice : pySlice ms (some (a - 1)) (some b)
        = (ms.take b.toNat).drop (a - 1).toNat := by
      unfold pySlice
      simp only [pySliceBound]
      have hsa : ¬ (a - 1 < 0) := by omega
      have hsb : ¬ (b < 0) := by omega
      rw [if_neg hsa, if_neg hsb]
      have e1 : min (a - 1 : Int).toNat ms.length = (a - 1).toNat := by
        omega
      have e2 : min (b : Int).toNat ms.length = b.toNat := by omega
      rw [e1, e2]
    have htklen : (ms.take b.toNat).length = b.toNat := by
      rw [List.length_take]
      omega
    constructor
    · rw [hslice, List.length_drop, htklen]
      omega
    · intro k hk
      rw [hslice, List.getElem?_drop]
      rw [List.getElem?_take_of_lt]
      omega

theorem convertToken_start {t : String} {n : Int} (h : pyInt? t = some n) :
    convertToken t true = .ok (some (if 0 < n then n - 1 else n)) := by
  unfold convertToken
  rw [if_neg (pyInt?_ne_dot h), h]
  simp

theorem convertToken_end {t : String} {n : Int} (h : pyInt? t = some n) :
    convertToken t false
      = .ok (if 0 < n then some n
          else if n = -1 then none else some (n + 1)) := by
  unfold convertToken
  rw [if_neg (pyInt?_ne_dot h), h]
  by_cases h0 : 0 < n
  · simp [h0]
  · by_cases h1 : n = -1 <;> simp [h0, h1]

/-- **C3.** Single-token resolution: with `allow_single` true, a positive
token `n` gives the one-element window `(n-1, n)`; the token `-1` gives
the open-ended window `(-1, None)`; any other negative token `n` gives the
one-element window `(n, n+1)` counted from the end. With `allow_single`
false every single numeric token fails with the wrong-number-of-indices
error. A bare `.` resolves to `(None, None)` regardless of `allow_single`. -/
theorem single_token_range_resolution :
    (∀ (ref t : String) (n : Int) (strict : Bool),
      pyStrSplit ref = [t] → pyInt? t = some n → 0 < n →
      userRangeToPythonRange ref true strict = .ok (some (n - 1), some n))
    ∧ (∀ (ref t : String) (strict : Bool),
      pyStrSplit ref = [t] → pyInt? t = some (-1) →
      userRangeToPythonRange ref true strict = .ok (some (-1), none))
    ∧ (∀ (ref t : String) (n : Int) (strict : Bool),
      pyStrSplit ref = [t] → pyInt? t = some n → n < -1 →
      userRangeToPythonRange ref true strict = .ok (some n, some (n + 1)))
    ∧ (∀ (ref t : String) (n : Int) (strict : Bool),
      pyStrSplit ref = [t] → pyInt? t = some n →
      userRangeToPythonRange ref false strict
        = .error .wrongNumberOfIndices)
    ∧ (∀ (ref : String) (allowSingle strict : Bool),
      pyStrSplit ref = ["."] →
      userRangeToPythonRange ref allowSingle strict = .ok (none, none)) := by
  refine ⟨?_, ?_, ?_, ?_, ?_⟩
  · intro ref t n strict hsplit h hn
    simp only [userRangeToPythonRange, hsplit,
      if_neg (pyInt?_ne_dot h), convertToken_start h, convertToken_end h,
      if_pos hn, Bool.not_true, Bool.false_eq_true, if_false]
    have hne : ¬ (some (n - 1) = some (-1 : Int)) := by
      intro hc
      injection hc with hc
      omega
    rw [if_neg hne]
    simp only [finishStrict]
    rw [if_neg (by omega)]
    have he : n - 1 + 1 = n := by omega
    rw [he]
  · intro ref t strict hsplit h
    simp only [userRangeToPythonRange, hsplit,
      if_neg (pyInt?_ne_dot h), convertToken_start h, convertToken_end h,
      Bool.not_true, Bool.false_eq_true, if_false]
    norm_num
    rfl
  · intro ref t n strict hsplit h hn
    have h0 : ¬ (0 < n) := by omega
    have h1 : ¬ (n = -1) := by omega
    simp only [userRangeToPythonRange, hsplit,
      if_neg (pyInt?_ne_dot h), convertToken_start h, convertToken_end h,
      if_neg h0, if_neg h1, Bool.not_true, Bool.false_eq_true, if_false]
    have hne : ¬ (some n = some (-1 : Int)) := by
      intro hc
      injection hc with hc
      omega
    rw [if_neg hne]
    simp only [finishStrict]
    rw [if_neg (by omega)]
  · intro ref t n strict hsplit h
    simp only [userRangeToPythonRange, hsplit,
      if_neg (pyInt?_ne_dot h), Bool.not_false, if_pos]
  · intro ref allowSingle strict hsplit
    simp only [userRangeToPythonRange, hsplit, if_pos]

/-- Witness for C3: `"5"`, `"-1"`, `"-3"` and `"."`, with `allow_single`
on and off. -/
theorem single_token_range_resolution_witness :
    userRangeToPythonRange "5" true true = .ok (some 4, some 5)
    ∧ userRangeToPythonRange "-1" true true = .ok (some (-1), none)
    ∧ userRangeToPythonRange "-3" true true = .ok (some (-3), some (-2))
    ∧ userRangeToPythonRange "5" false true
        = .error .wrongNumberOfIndices
    ∧ userRangeToPythonRange "." false true = .ok (none, none) := by
  refine ⟨?_, ?_, ?_, ?_, ?_⟩
  · have := single_token_range_resolution.1 "5" "5" 5 true rfl rfl
      (by norm_num)
    simpa using this
  · exact single_token_range_resolution.2.1 "-1" "-1" true rfl rfl
  · have := single_token_range_resolution.2.2.1 "-3" "-3" (-3) true rfl rfl
      (by norm_num)
    simpa using this
  · exact single_token_range_resolution.2.2.2.1 "5" "5" 5 true rfl rfl
  · exact single_token_range_resolution.2.2.2.2 "." false true rfl

/-- Witness for C2: `resolve "1 3"` gives `(0, 3)`, and slicing a
four-message thread with it yields messages 1..3. -/
theorem two_token_range_resolution_witness :
    userRangeToPythonRange "1 3" true true = .ok (some 0, some 3)
    ∧ (pySlice
        ([⟨"a", .user, none, false, [], []⟩,
          ⟨"b", .assistant, none, false, [], []⟩,
          ⟨"c", .user, none, false, [], []⟩,
          ⟨"d", .assistant, none, false, [], []⟩] : List Message)
        (some 0) (some 3)).length = 3 := by
  have h := two_token_range_resolution "1 3" "1" "3" 1 3 rfl rfl rfl
    (by norm_num) (by norm_num)
  refine ⟨?_, ?_⟩
  · have := h.1
    norm_num at this ⊢
    exact this
  · have := (h.2 [⟨"a", .user, none, false, [], []⟩,
      ⟨"b", .assistant, none, false, [], []⟩,
      ⟨"c", .user, none, false, [], []⟩,
      ⟨"d", .assistant, none, false, [], []⟩] (by norm_num)).1
    norm_num at this ⊢
    exact this

/-! ## Copying messages between threads (`cli.py` `do_copy` / `do_thread`,
`message.py` `MessageThread.__init__`)

Both paths copy a message with `dataclasses.replace(m)`: a new `Message`
object built from the same field values. Python object identity matters
here, so this model gives each message references into a heap of mutable
containers (its `attachments` list and `metadata` dict). -/

structure PyMessageObj where
  content : String
  role : MessageRole
  name : Option String
  sticky : Bool
  attachmentsRef : Nat
  metadataRef : Nat

/-- The mutable containers: each reference designates one attachments list
and one metadata dict. -/
structure PyHeap where
  attachLists : Nat → List MessageAttachment
  metadataMaps : Nat → Jdict

/-- `dataclasses.replace(m)` (no changed fields): a fresh `Message` whose
every field holds the same value — for the `attachments` and `metadata`
fields, the same container references (a shallow copy). -/
def dataclassesReplace (m : PyMessageObj) : PyMessageObj :=
  ⟨m.content, m.role, m.name, m.sticky, m.attachmentsRef, m.metadataRef⟩

/-- In-place mutation `msg.attachments.append(a)`. -/
def PyHeap.appendAttachment (h : PyHeap) (r : Nat) (a : MessageAttachment) :
    PyHeap :=
  { h with
    attachLists := fun r2 =>
      if r2 = r then h.attachLists r2 ++ [a] else h.attachLists r2 }

/-- Python dict assignment `d[k] = v`: overwrite the key in place, or add
it at the end. -/
def pyDictSet (d : Jdict) (k : String) (v : Jval) : Jdict :=
  if (d.any (fun p => p.1 == k)) then
    d.map (fun p => if p.1 == k then (k, v) else p)
  else d ++ [(k, v)]

/-- In-place mutation `msg.metadata[k] = v`. -/
def PyHeap.setMetadataKey (h : PyHeap) (r : Nat) (k : String) (v : Jval) :
    PyHeap :=
  { h with
    metadataMaps := fun r2 =>
      if r2 = r then pyDictSet (h.metadataMaps r2) k v
      else h.metadataMaps r2 }

/-- The attachments list a message observes. -/
def PyMessageObj.attachmentsIn (m : PyMessageObj) (h : PyHeap) :
    List MessageAttachment :=
  h.attachLists m.attachmentsRef

/-- The metadata dict a message observes. -/
def PyMessageObj.metadataIn (m : PyMessageObj) (h : PyHeap) : Jdict :=
  h.metadataMaps m.metadataRef

/-- The original message and empty heap for the C9 counterexample. -/
def c9Orig : PyMessageObj := ⟨"hello", .user, none, false, 0, 0⟩

def c9Heap : PyHeap := ⟨fun _ => [], fun _ => []⟩

/-- **C9 counterexample.** Copying between threads uses
`dataclasses.replace`, a shallow copy: appending to the *copy's*
attachments list changes the attachments the *original* message observes,
so "mutating any part of the copy (including its attachments list) never
affects the original" is false. -/
theorem copy_shallow_aliasing_cex :
    ¬ (c9Orig.attachmentsIn
        (c9Heap.appendAttachment
          (dataclassesReplace c9Orig).attachmentsRef (.audio "u"))
      = c9Orig.attachmentsIn c9Heap) := by
  intro hc
  have : ([MessageAttachment.audio "u"] : List MessageAttachment) = [] := hc
  simp at this

/-- **C9 (amended).** A message copied between threads is a fresh object
carrying the same top-level field values, so rebinding the copy's scalar
fields never affects the original; but its `attachments` list and
`metadata` dict are the very same containers as the original's
(`dataclasses.replace` is shallow), so in-place mutation through the copy
is observed through the original. -/
theorem copy_shallow_aliasing :
    ∀ (m : PyMessageObj) (h : PyHeap) (a : MessageAttachment) (k : String)
      (v : Jval),
      (dataclassesReplace m).content = m.content
      ∧ (dataclassesReplace m).role = m.role
      ∧ (dataclassesReplace m).name = m.name
      ∧ (dataclassesReplace m).sticky = m.sticky
      ∧ (dataclassesReplace m).attachmentsRef = m.attachmentsRef
      ∧ (dataclassesReplace m).metadataRef = m.metadataRef
      ∧ m.attachmentsIn
          (h.appendAttachment (dataclassesReplace m).attachmentsRef a)
        = m.attachmentsIn h ++ [a]
      ∧ m.metadataIn
          (h.setMetadataKey (dataclassesReplace m).metadataRef k v)
        = pyDictSet (m.metadataIn h) k v := by
  intro m h a k v
  refine ⟨rfl, rfl, rfl, rfl, rfl, rfl, ?_, ?_⟩
  · simp [PyMessageObj.attachmentsIn, PyHeap.appendAttachment,
      dataclassesReplace]
  · simp [PyMessageObj.metadataIn, PyHeap.setMetadataKey,
      dataclassesReplace]

/-! ## Macro Formatter (`macros.py`, `_MacroFormatter`) -/

/-- The `MacroError`s `_MacroFormatter` raises, by message. -/
inductive MacroFmtError where
  | invalidArgIndex
  | missingPositional (n : Nat)
  | undefinedName (name : String)
  | attrAccess
  deriving DecidableEq, Repr

/-- `str.isdecimal()` over the digit characters the formatter cares
about: non-empty and all digits. -/
def isDecimalStr (s : String) : Bool :=
  !s.data.isEmpty && s.data.all Char.isDigit

/-- The character class `shlex.quote` treats as safe: its `_find_unsafe`
regex (ASCII mode) finds nothing when every character is a word character
or one of `@ % + = : , .` or a slash or a hyphen. -/
def shlexSafeChar (c : Char) : Bool :=
  c.isAlpha || c.isDigit || c = '_' || c = '@' || c = '%' || c = '+'
    || c = '=' || c = ':' || c = ',' || c = '.' || c = '/' || c = '-'

/-- `shlex.quote`: empty becomes `''`; a safe string is unchanged;
anything else is wrapped in single quotes with embedded single quotes
rewritten. -/
def shlexQuote (s : String) : String :=
  if s = "" then "''"
  else if s.data.all shlexSafeChar then s
  else
    "'"
      ++ String.join
          (s.data.map
            (fun c => if c = '\'' then "'\"'\"'" else String.mk [c]))
      ++ "'"

/-- `shlex.join(args)`: the quoted arguments joined with single spaces. -/
def shlexJoin (args : List String) : String :=
  String.intercalate " " (args.map shlexQuote)

/-- `_MacroFormatter.get_value`: `*` expands to all positional arguments
re-quoted; a decimal key is a 1-based positional index (`<= 0` is an
invalid index, past the end is a missing argument); any other key is
looked up in the named-binding environment (`KeyError` becomes
"Undefined name"). -/
def fmtGetValue (key : String) (args : List String)
    (env : String → Option String) : Except MacroFmtError String :=
  if key = "*" then .ok (shlexJoin args)
  else if isDecimalStr key then
    let k := (pyDigits? key.data).getD 0
    if k = 0 then .error .invalidArgIndex
    else
      match args.get? (k - 1) with
      | some v => .ok v
      | none => .error (.missingPositional k)
  else
    match env key with
    | some v => .ok v
    | none => .error (.undefinedName key)

/-- `field_name.split("?", maxsplit=1)` when a `?` is present: the part
before the first `?` and everything after it. -/
def splitQAux : List Char → Option (List Char × List Char)
  | [] => none
  | c :: cs =>
      if c = '?' then some ([], cs)
      else (splitQAux cs).map (fun p => (c :: p.1, p.2))

/-- `_MacroFormatter.get_field`: reject `.`/`[` anywhere in the
placeholder; split off a `?default`; resolve the name, and on any lookup
failure substitute the literal default when one was given. -/
def fmtGetField (fieldName : String) (args : List String)
    (env : String → Option String) : Except MacroFmtError String :=
  if fieldName.data.any (fun c => c = '.' || c = '[') then
    .error .attrAccess
  else
    let nd : String × Option String :=
      match splitQAux fieldName.data with
      | some p => (String.mk p.1, some (String.mk p.2))
      | none => (fieldName, none)
    match fmtGetValue nd.1 args env, nd.2 with
    | .ok v, _ => .ok v
    | .error _, some d => .ok d
    | .error e, none => .error e

/-- A parsed template: literal runs and replacement fields.
`Formatter.vformat` walks these in order; `check_unused_args` is
overridden to do nothing, so no end-of-format check consults the
argument list. -/
inductive TplItem where
  | lit (s : String)
  | field (fieldName : String)

def fmtVformat (items : List TplItem) (args : List String)
    (env : String → Option String) : Except MacroFmtError String :=
  match items with
  | [] => .ok ""
  | .lit s :: rest => (fmtVformat rest args env).map (fun t => s ++ t)
  | .field f :: rest =>
      match fmtGetField f args env with
      | .error e => .error e
      | .ok v => (fmtVformat rest args env).map (fun t => v ++ t)

theorem splitQAux_none {cs : List Char} (h : cs.all (fun c => !(c = '?')) = true) :
    splitQAux cs = none := by
  induction cs with
  | nil => rfl
  | cons c rest ih =>
      rw [List.all_cons, Bool.and_eq_true] at h
      have hc : ¬ (c = '?') := by
        have := h.1
        simpa using this
      simp only [splitQAux, if_neg hc]
      rw [ih h.2]
      rfl

theorem splitQAux_append {name d : List Char}
    (h : name.all (fun c => !(c = '?')) = true) :
    splitQAux (name ++ '?' :: d) = some (name, d) := by
  induction name with
  | nil => simp [splitQAux]
  | cons c rest ih =>
      rw [List.all_cons, Bool.and_eq_true] at h
      have hc : ¬ (c = '?') := by
        have := h.1
        simpa using this
      rw [List.cons_append]
      simp only [splitQAux, if_neg hc]
      rw [ih h.2]
      rfl

theorem decimal_no_special {s : String} (h : isDecimalStr s = true) :
    s.data.any (fun c => c = '.' || c = '[') = false
    ∧ s.data.all (fun c => !(c = '?')) = true := by
  simp only [isDecimalStr, Bool.and_eq_true, List.all_eq_true] at h
  constructor
  · rw [Bool.eq_false_iff]
    intro hc
    simp only [List.any_eq_true] at hc
    obtain ⟨c, hm, hcb⟩ := hc
    have hd : c.isDigit = true := h.2 c hm
    rcases Bool.or_eq_true _ _ |>.mp hcb with h1 | h1
    · rw [decide_eq_true_iff] at h1
      subst h1
      simp [Char.isDigit] at hd
    · rw [decide_eq_true_iff] at h1
      subst h1
      simp [Char.isDigit] at hd
  · simp only [List.all_eq_true]
    intro c hm
    have hd : c.isDigit = true := h.2 c hm
    simp only [Bool.not_eq_true', decide_eq_false_iff_not]
    intro hc
    subst hc
    simp [Char.isDigit] at hd

/-- A successful positional/named lookup stays successful when extra
positional arguments are appended (the value may change only for `*`). -/
theorem fmtGetValue_extend {key : String} {args : List String}
    (extra : List String) {env : String → Option String} {v : String}
    (h : fmtGetValue key args env = .ok v) :
    ∃ v2, fmtGetValue key (args ++ extra) env = .ok v2 := by
  unfold fmtGetValue at h ⊢
  by_cases hstar : key = "*"
  · rw [if_pos hstar]
    exact ⟨_, rfl⟩
  · rw [if_neg hstar] at h ⊢
    by_cases hdec : isDecimalStr key = true
    · rw [if_pos hdec] at h ⊢
      rcases hk : (pyDigits? key.data).getD 0 with _ | k
      · rw [hk] at h
        simp at h
      · rw [hk] at h
        simp only [Nat.succ_ne_zero, if_neg, reduceCtorEq] at h ⊢
        rcases hg : args.get? (k + 1 - 1) with _ | w
        · rw [hg] at h
          exact absurd h (by simp)
        · obtain ⟨hlt, -⟩ := List.get?_eq_some.mp hg
          have hg2 : (args ++ extra).get? (k + 1 - 1) = some w := by
            rw [List.get?_append hlt]
            exact hg
          rw [hg2]
          exact ⟨w, rfl⟩
    · rw [if_neg hdec] at h ⊢
      rcases he : env key with _ | w
      · rw [he] at h
        exact absurd h (by simp)
      · exact ⟨w, rfl⟩

/-- A successful placeholder resolution stays successful when extra
positional arguments are appended: with a default present every outcome is
a success, and without one the underlying lookup was a success and stays
one. -/
theorem fmtGetField_extend {f : String} {args : List String}
    (extra : List String) {env : String → Option String} {v : String}
    (h : fmtGetField f args env = .ok v) :
    ∃ v2, fmtGetField f (args ++ extra) env = .ok v2 := by
  unfold fmtGetField at h ⊢
  cases hdot : f.data.any (fun c => c = '.' || c = '[') with
  | true =>
      rw [hdot] at h
      simp at h
  | false =>
      rw [hdot] at h
      simp only [Bool.false_eq_true, if_false] at h ⊢
      set nd : String × Option String :=
        (match splitQAux f.data with
          | some p => (String.mk p.1, some (String.mk p.2))
          | none => (f, none)) with hnddef
      rcases hv : fmtGetValue nd.1 args env with e | w
      · rw [hv] at h
        rcases hnd : nd.2 with _ | d
        · rw [hnd] at h
          exact absurd h (by simp)
        · rcases hv2 : fmtGetValue nd.1 (args ++ extra) env with e2 | w2
          · exact ⟨d, rfl⟩
          · exact ⟨w2, rfl⟩
      · obtain ⟨w2, hw2⟩ := fmtGetValue_extend extra hv
        rw [hw2]
        exact ⟨w2, rfl⟩

/-- **C7.** Macro formatting: a positional `{N}` beyond the argument count
is a hard error; an undefined `{name}` is a hard error; `{*}` expands to
all positional arguments re-quoted and joined; `{name?default}`
substitutes the literal default whenever the lookup fails for any reason;
`.` or `[` inside a placeholder is an error; and arguments a template
leaves unused never cause an error (a formatting that succeeds still
succeeds when extra arguments are supplied). -/
theorem macro_formatter_contract :
    (∀ (tok : String) (args : List String) (env : String → Option String)
      (n : Nat),
      isDecimalStr tok = true → pyDigits? tok.data = some n →
      args.length < n →
      fmtGetField tok args env = .error (.missingPositional n))
    ∧ (∀ (name : String) (args : List String)
        (env : String → Option String),
        name ≠ "*" → isDecimalStr name = false →
        name.data.any (fun c => c = '.' || c = '[') = false →
        name.data.all (fun c => !(c = '?')) = true →
        env name = none →
        fmtGetField name args env = .error (.undefinedName name))
    ∧ (∀ (args : List String) (env : String → Option String),
        fmtGetField "*" args env = .ok (shlexJoin args))
    ∧ (∀ (name d : String) (args : List String)
        (env : String → Option String) (e : MacroFmtError),
        (name ++ "?" ++ d).data.any (fun c => c = '.' || c = '[') = false →
        name.data.all (fun c => !(c = '?')) = true →
        fmtGetValue name args env = .error e →
        fmtGetField (name ++ "?" ++ d) args env = .ok d)
    ∧ (∀ (s : String) (args : List String) (env : String → Option String),
        s.data.any (fun c => c = '.' || c = '[') = true →
        fmtGetField s args env = .error .attrAccess)
    ∧ (∀ (items : List TplItem) (args extra : List String)
        (env : String → Option String) (out : String),
        fmtVformat items args env = .ok out →
        ∃ out2, fmtVformat items (args ++ extra) env = .ok out2) := by
  refine ⟨?_, ?_, ?_, ?_, ?_, ?_⟩
  · intro tok args env n hdec hval hlen
    obtain ⟨hnodot, hnoq⟩ := decimal_no_special hdec
    unfold fmtGetField
    rw [hnodot]
    simp only [Bool.false_eq_true, if_false, splitQAux_none hnoq]
    unfold fmtGetValue
    have hstar : tok ≠ "*" := by
      intro hc
      rw [hc] at hdec
      simp [isDecimalStr, Char.isDigit] at hdec
    rw [if_neg hstar, if_pos hdec, hval]
    have hn : n ≠ 0 := by omega
    simp only [Option.getD_some, if_neg hn]
    have : args.get? (n - 1) = none := by
      rw [List.get?_eq_none]
      omega
    rw [this]
  · intro name args env hstar hdec hnodot hnoq henv
    unfold fmtGetField
    rw [hnodot]
    simp only [Bool.false_eq_true, if_false, splitQAux_none hnoq]
    unfold fmtGetValue
    rw [if_neg hstar, hdec]
    simp only [Bool.false_eq_true, if_false, henv]
  · intro args env
    unfold fmtGetField
    have h1 : ("*".data.any (fun c => c = '.' || c = '[')) = false := by
      decide
    rw [h1]
    simp only [Bool.false_eq_true, if_false]
    have h2 : splitQAux "*".data = none := by decide
    rw [h2]
    rfl
  · intro name d args env e hnodot hnoq hval
    unfold fmtGetField
    rw [hnodot]
    simp only [Bool.false_eq_true, if_false]
    have hd : (name ++ "?" ++ d).data = name.data ++ '?' :: d.data := by
      simp [String.data_append]
    rw [hd, splitQAux_append hnoq]
    show (match fmtGetValue name args env,
        (some d : Option String) with
      | Except.ok v, _ => Except.ok v
      | Except.error _, some dd => Except.ok dd
      | Except.error er, none => Except.error er)
      = (Except.ok d : Except MacroFmtError String)
    rw [hval]
  · intro s args env hdot
    unfold fmtGetField
    rw [hdot]
    rfl
  · intro items args extra env out h
    induction items generalizing out with
    | nil => exact ⟨out, h⟩
    | cons item rest ih =>
        cases item with
        | lit s =>
            simp only [fmtVformat] at h
            rcases hr : fmtVformat rest args env with e | t
            · rw [hr] at h
              simp [Except.map] at h
            · rw [hr] at h
              obtain ⟨t2, ht2⟩ := ih t hr
              refine ⟨s ++ t2, ?_⟩
              simp only [fmtVformat, ht2]
              rfl
        | field f =>
            simp only [fmtVformat] at h
            rcases hf : fmtGetField f args env with e | v
            · rw [hf] at h
              simp at h
            · rw [hf] at h
              rcases hr : fmtVformat rest args env with e | t
              · rw [hr] at h
                simp [Except.map] at h
              · obtain ⟨v2, hv2⟩ := fmtGetField_extend extra hf
                obtain ⟨t2, ht2⟩ := ih t hr
                refine ⟨v2 ++ t2, ?_⟩
                simp only [fmtVformat, hv2, ht2]
                rfl

/-- Witness for C7: concrete instances of each formatter clause. -/
theorem macro_formatter_contract_witness :
    fmtGetField "3" ["x"] (fun _ => none)
        = .error (.missingPositional 3)
    ∧ fmtGetField "who" [] (fun _ => none)
        = .error (.undefinedName "who")
    ∧ fmtGetField "*" ["a b", "c"] (fun _ => none)
        = .ok (shlexJoin ["a b", "c"])
    ∧ fmtGetField "who?me" [] (fun _ => none) = .ok "me"
    ∧ fmtGetField "a.b" [] (fun _ => none) = .error .attrAccess
    ∧ (∃ out2,
        fmtVformat [.lit "user ", .field "1"] ["hi", "spare"]
          (fun _ => none) = .ok out2) := by
  refine ⟨?_, ?_, ?_, ?_, ?_, ?_⟩
  · exact macro_formatter_contract.1 "3" ["x"] (fun _ => none) 3
      (by decide) (by decide) (by decide)
  · exact macro_formatter_contract.2.1 "who" [] (fun _ => none)
      (by decide) (by decide) (by decide) (by decide) rfl
  · exact macro_formatter_contract.2.2.1 ["a b", "c"] (fun _ => none)
  · exact macro_formatter_contract.2.2.2.1 "who" "me" [] (fun _ => none)
      (.undefinedName "who") (by decide) (by decide) rfl
  · exact macro_formatter_contract.2.2.2.2.1 "a.b" [] (fun _ => none)
      (by decide)
  · exact macro_formatter_contract.2.2.2.2.2 [.lit "user ", .field "1"]
      ["hi"] ["spare"] (fun _ => none) "user hi" rfl

/-! ## Macro Runner (`macros.py`, `MacroRunner`)

`MacroRunner.run` checks the macro name against the currently-executing
set, adds it, opens a `_stack_frame` (which raises "Stack overflow" when
the shared depth counter has reached the ceiling, and otherwise increments
it), then processes each logical line: a directive or formatted command
line either succeeds (the dispatcher returning a stop flag), or raises a
`MacroError`; a line that is a macro invocation re-enters the runner via
the dispatcher and `Gptcmd._run_macro`, which catches any `MacroError` of
that nested invocation, prints it and returns `False`. The per-line
`except` clause stamps the current line number on an error that carries
none and re-raises; `finally` blocks restore the depth counter and remove
the name from the executing set on every exit. -/

/-- The distinct `MacroError` messages the runner raises or forwards. -/
inductive MacroMsg where
  | recursiveInvocation (name : String)
  | stackOverflow
  | fromLine (s : String)
  | fuelExhausted
  deriving DecidableEq, Repr

/-- `MacroError`: a message plus the optional `line_num` attribute. -/
structure MacroErr where
  msg : MacroMsg
  lineNum : Option Nat
  deriving DecidableEq, Repr

/-- What processing one non-invocation line does, as observed by the
runner: the dispatcher/formatter/directive either finishes (returning the
dispatcher's stop flag) or raises a `MacroError` (possibly already
carrying a line number, as a directive handler receiving `line_num`
could). -/
inductive LineOutcome where
  | ok (stop : Bool)
  | err (e : MacroErr)
  deriving DecidableEq, Repr

/-- One logical line of a macro body: either a line modelled by its
outcome, or a command line that the dispatcher resolves to another macro
invocation (`Gptcmd.default` → `_run_macro`). -/
inductive MLine where
  | basic (o : LineOutcome)
  | callMacro (m : String)
  deriving DecidableEq, Repr

/-- The runner's mutable state (`_depth`, `_active_macros`) plus a trace
recording, in order, each `(macro name, line number)` whose line
processing began — used to state "before any of its lines execute". -/
structure MacroSt where
  depth : Nat
  active : List String
  trace : List (String × Nat)
  deriving DecidableEq, Repr

/-- `MacroRunner._STACK_DEPTH_LIMIT`. -/
def stackDepthLimit : Nat := 10

mutual

/-- `MacroRunner.run` (one invocation). `fuel` only bounds the modelled
recursion depth and is a model artifact: with the depth guard, any fuel
above the line count times the depth ceiling is never exhausted. -/
def runMacro (fuel : Nat) (table : String → Option (List MLine))
    (name : String) (body : List MLine) (st : MacroSt) :
    Except MacroErr Bool × MacroSt :=
  if _hf : fuel = 0 then (.error ⟨.fuelExhausted, none⟩, st)
  else
    if st.active.contains name then
      (.error ⟨.recursiveInvocation name, none⟩, st)
    else
      let st1 : MacroSt := { st with active := name :: st.active }
      if stackDepthLimit ≤ st1.depth then
        (.error ⟨.stackOverflow, none⟩,
          { st1 with active := st1.active.erase name })
      else
        let st2 : MacroSt := { st1 with depth := st1.depth + 1 }
        let r := runLines (fuel - 1) table name body 1 st2
        (r.1,
          { r.2 with
            depth := r.2.depth - 1,
            active := r.2.active.erase name })
termination_by fuel

/-- The per-line loop of `MacroRunner.run`: record that line `k` began,
process it, stamp the line number on an unannotated `MacroError`
(`if e.line_num is None: e.line_num = line_num`) and re-raise; a nested
invocation is re-entered through the dispatcher and `_run_macro`, whose
`except MacroError` clause prints the nested error and returns `False`,
so the outer loop continues; a `True` stop flag propagates immediately. -/
def runLines (fuel : Nat) (table : String → Option (List MLine))
    (name : String) (lines : List MLine) (k : Nat) (st : MacroSt) :
    Except MacroErr Bool × MacroSt :=
  if _hf : fuel = 0 then (.error ⟨.fuelExhausted, none⟩, st)
  else
    match lines with
    | [] => (.ok false, st)
    | l :: rest =>
        let st1 : MacroSt := { st with trace := st.trace ++ [(name, k)] }
        match l with
        | .basic (.ok stop) =>
            if stop then (.ok true, st1)
            else runLines (fuel - 1) table name rest (k + 1) st1
        | .basic (.err e) =>
            (.error { e with lineNum := some (e.lineNum.getD k) }, st1)
        | .callMacro m =>
            match table m with
            | none => runLines (fuel - 1) table name rest (k + 1) st1
            | some mbody =>
                let r := runMacro (fuel - 1) table m mbody st1
                match r.1 with
                | .ok stop =>
                    if stop then (.ok true, r.2)
                    else runLines (fuel - 1) table name rest (k + 1) r.2
                | .error _ => runLines (fuel - 1) table name rest (k + 1) r.2
termination_by fuel

end

/-- An eleven-deep chain of distinct macros, each of whose single line
invokes the next; the last would run one ordinary line. -/
def chainTable : String → Option (List MLine)
  | "m1" => some [.callMacro "m2"]
  | "m2" => some [.callMacro "m3"]
  | "m3" => some [.callMacro "m4"]
  | "m4" => some [.callMacro "m5"]
  | "m5" => some [.callMacro "m6"]
  | "m6" => some [.callMacro "m7"]
  | "m7" => some [.callMacro "m8"]
  | "m8" => some [.callMacro "m9"]
  | "m9" => some [.callMacro "m10"]
  | "m10" => some [.callMacro "m11"]
  | "m11" => some [.basic (.ok false)]
  | _ => none

/-- **C4.** Invoking a macro whose name is already in the
currently-executing set fails with `RecursiveInvocationError` with the
state — in particular the trace of executed lines — unchanged; entering a
macro when the shared depth counter has reached the ceiling of 10 fails
with `StackOverflowError`, likewise before any of its lines execute; and
on the concrete chain of eleven distinct nested macros the lines of
macros 1–10 each begin but no line of the eleventh ever does. -/
theorem macro_recursion_and_depth_guards :
    (∀ (fuel : Nat) (table : String → Option (List MLine)) (name : String)
      (body : List MLine) (st : MacroSt),
      fuel ≠ 0 →
      st.active.contains name = true →
      runMacro fuel table name body st
        = (.error ⟨.recursiveInvocation name, none⟩, st))
    ∧ (∀ (fuel : Nat) (table : String → Option (List MLine)) (name : String)
        (body : List MLine) (st : MacroSt),
        fuel ≠ 0 →
        st.active.contains name = false →
        stackDepthLimit ≤ st.depth →
        runMacro fuel table name body st
          = (.error ⟨.stackOverflow, none⟩, st))
    ∧ (runMacro 25 chainTable "m1" [.callMacro "m2"] ⟨0, [], []⟩).2.trace
        = [("m1", 1), ("m2", 1), ("m3", 1), ("m4", 1), ("m5", 1),
           ("m6", 1), ("m7", 1), ("m8", 1), ("m9", 1), ("m10", 1)] := by
  refine ⟨?_, ?_, ?_⟩
  · intro fuel table name body st hfuel h
    unfold runMacro
    rw [dif_neg hfuel]
    simp only [h, if_pos]
  · intro fuel table name body st hfuel hact hdepth
    unfold runMacro
    rw [dif_neg hfuel]
    simp only [hact, Bool.false_eq_true, if_false, Bool.true_eq_false,
      if_neg]
    rw [if_pos hdepth]
    have he : (name :: st.active).erase name = st.active :=
      List.erase_cons_head name st.active
    rw [he]
  · simp [runMacro, runLines, chainTable, stackDepthLimit]

/-- Witness for C4: a macro re-entered while running fails as recursive
with nothing executed, and an eleventh nesting level overflows with
nothing executed (depth 10, as produced by the chain). -/
theorem macro_recursion_and_depth_guards_witness :
    runMacro 5 chainTable "m2" [.callMacro "m3"]
        ⟨3, ["m2", "m1"], [("m1", 1), ("m2", 1)]⟩
      = (.error ⟨.recursiveInvocation "m2", none⟩,
          ⟨3, ["m2", "m1"], [("m1", 1), ("m2", 1)]⟩)
    ∧ runMacro 5 chainTable "m11" [.basic (.ok false)]
        ⟨10, ["m10", "m9", "m8", "m7", "m6", "m5", "m4", "m3", "m2", "m1"],
          []⟩
      = (.error ⟨.stackOverflow, none⟩,
          ⟨10,
            ["m10", "m9", "m8", "m7", "m6", "m5", "m4", "m3", "m2", "m1"],
            []⟩) := by
  constructor
  · exact macro_recursion_and_depth_guards.1 5 chainTable "m2"
      [.callMacro "m3"] ⟨3, ["m2", "m1"], [("m1", 1), ("m2", 1)]⟩
      (by decide) (by decide)
  · exact macro_recursion_and_depth_guards.2.1 5 chainTable "m11"
      [.basic (.ok false)]
      ⟨10, ["m10", "m9", "m8", "m7", "m6", "m5", "m4", "m3", "m2", "m1"],
        []⟩ (by decide) (by decide) (by decide)

theorem runLines_error_line_stamp (pre : List MLine) :
    ∀ (fuel : Nat) (table : String → Option (List MLine)) (name : String)
      (rest : List MLine) (e : MacroErr) (k : Nat) (st : MacroSt),
      (∀ l ∈ pre, l = .basic (.ok false)) →
      pre.length < fuel →
      (runLines fuel table name (pre ++ .basic (.err e) :: rest) k st).1
        = .error ⟨e.msg, some (e.lineNum.getD (k + pre.length))⟩ := by
  induction pre with
  | nil =>
      intro fuel table name rest e k st _ hfuel
      unfold runLines
      rw [dif_neg (by omega)]
      simp only [List.nil_append]
      rfl
  | cons l pre ih =>
      intro fuel table name rest e k st hok hfuel
      have hl : l = .basic (.ok false) := hok l (by simp)
      subst hl
      unfold runLines
      rw [dif_neg (by omega)]
      simp only [List.cons_append, Bool.false_eq_true, if_false]
      rw [ih (fuel - 1) table name rest e (k + 1)
        { st with trace := st.trace ++ [(name, k)] }
        (fun x hx => hok x (by simp [hx]))
        (by simp at hfuel ⊢; omega)]
      rw [show k + 1 + pre.length = k + (pre.length + 1) from by omega]
      simp [List.length_cons]

/-- **C8.** When processing of a macro line raises a `MacroError`, the
error that propagates out of the invocation carries a line number stamped
exactly once at the point of first catch: an error raised without a line
number gets the 1-based number of the failing logical line (here, the
lines before it all succeed), while an error already carrying a line
number is re-raised with its original number, never overwritten. -/
theorem macro_error_line_stamp :
    ∀ (fuel : Nat) (table : String → Option (List MLine)) (name : String)
      (pre rest : List MLine) (e : MacroErr) (st : MacroSt),
      (∀ l ∈ pre, l = .basic (.ok false)) →
      st.active.contains name = false →
      st.depth < stackDepthLimit →
      pre.length + 1 < fuel →
      ((e.lineNum = none →
        (runMacro fuel table name
            (pre ++ .basic (.err e) :: rest) st).1
          = .error ⟨e.msg, some (pre.length + 1)⟩)
      ∧ ∀ j : Nat, e.lineNum = some j →
          (runMacro fuel table name
              (pre ++ .basic (.err e) :: rest) st).1
            = .error ⟨e.msg, some j⟩) := by
  intro fuel table name pre rest e st hok hact hdepth hfuel
  have hrun : (runMacro fuel table name
      (pre ++ .basic (.err e) :: rest) st).1
      = .error ⟨e.msg, some (e.lineNum.getD (1 + pre.length))⟩ := by
    unfold runMacro
    rw [dif_neg (by omega)]
    simp only [hact, Bool.false_eq_true, if_false, Bool.true_eq_false,
      if_neg]
    rw [if_neg (by omega)]
    rw [runLines_error_line_stamp pre (fuel - 1) table name rest e 1 _
      hok (by omega)]
  constructor
  · intro hnone
    rw [hrun, hnone]
    rw [show pre.length + 1 = 1 + pre.length from by omega]
    rfl
  · intro j hj
    rw [hrun, hj]
    rfl

/-- Witness for C8: in a macro whose first line succeeds, an unannotated
error on logical line 2 is reported as line 2, while an error already
annotated with line 7 (e.g. forwarded by a directive) keeps 7. -/
theorem macro_error_line_stamp_witness :
    ((runMacro 9 chainTable "w"
        [.basic (.ok false), .basic (.err ⟨.fromLine "boom", none⟩)]
        ⟨0, [], []⟩).1
      = .error ⟨.fromLine "boom", some 2⟩)
    ∧ ((runMacro 9 chainTable "w"
        [.basic (.ok false), .basic (.err ⟨.fromLine "boom", some 7⟩)]
        ⟨0, [], []⟩).1
      = .error ⟨.fromLine "boom", some 7⟩) := by
  constructor
  · exact (macro_error_line_stamp 9 chainTable "w"
      [.basic (.ok false)] [] ⟨.fromLine "boom", none⟩ ⟨0, [], []⟩
      (by decide) (by decide) (by decide) (by decide)).1 rfl
  · exact (macro_error_line_stamp 9 chainTable "w"
      [.basic (.ok false)] [] ⟨.fromLine "boom", some 7⟩ ⟨0, [], []⟩
      (by decide) (by decide) (by decide) (by decide)).2 7 rfl

/-! ## Logical-line splitting (`macros.py`, `MacroRunner._split`)

`_split` dedents the definition, then keeps `raw.strip()` for every line
for which `raw.strip()` is non-empty and `raw.lstrip()` does not start
with `#`. Dedenting removes a common whitespace prefix, which changes
neither `raw.strip()` nor either filter condition, so the model works on
the un-dedented lines. `run` then numbers the kept lines
`enumerate(..., start=1)`. -/

/-- Python `str.lstrip()` (no argument): drop leading whitespace. -/
def pyLstripChars : List Char → List Char
  | [] => []
  | c :: cs => if c.isWhitespace then pyLstripChars cs else c :: cs

/-- Python `str.strip()` (no argument): drop leading and trailing
whitespace. -/
def pyStripChars (cs : List Char) : List Char :=
  (pyLstripChars (pyLstripChars cs).reverse).reverse

def pyStrip (s : String) : String := String.mk (pyStripChars s.data)

/-- `raw.lstrip().startswith("#")`. -/
def startsWithHash (s : String) : Bool :=
  match pyLstripChars s.data with
  | c :: _ => c = '#'
  | [] => false

/-- The filter of `_split`: keep a line iff its stripped form is non-empty
and it is not a comment line. -/
def keepLine (l : String) : Bool :=
  !(pyStripChars l.data).isEmpty && !(startsWithHash l)

/-- `MacroRunner._split`, on the definition's list of raw lines: the
stripped forms of the kept lines, in order. -/
def splitDefinition (raw : List String) : List String :=
  (raw.filter keepLine).map pyStrip

/-- **C10.** The line numbers the runner attaches count only logical
lines: the raw line at 0-based position `p` (1-based position `p + 1`)
that survives filtering appears in the split list at 0-based index equal
to the number of kept lines before it, so `run` numbers it with that
count plus one; when some earlier raw line is dropped (blank or comment),
that logical line number is strictly smaller than `p + 1`. -/
theorem logical_line_numbering :
    ∀ (raw : List String) (p : Nat) (hp : p < raw.length),
      keepLine raw[p] = true →
      (∃ j l, j < p ∧ raw.get? j = some l ∧ keepLine l = false) →
      (splitDefinition raw).get? ((raw.take p).filter keepLine).length
          = some (pyStrip raw[p])
      ∧ ((raw.take p).filter keepLine).length + 1 < p + 1 := by
  intro raw p hp hkeep hdrop
  obtain ⟨j, l, hjp, hgetj, hkeepj⟩ := hdrop
  constructor
  · have hfilter : raw.filter keepLine
        = (raw.take p).filter keepLine
          ++ raw[p] :: (raw.drop (p + 1)).filter keepLine := by
      conv_lhs =>
        rw [← List.take_append_drop p raw, List.drop_eq_getElem_cons hp]
      rw [List.filter_append, List.filter_cons_of_pos hkeep]
    have hsd : splitDefinition raw
        = ((raw.take p).filter keepLine).map pyStrip
          ++ pyStrip raw[p]
            :: ((raw.drop (p + 1)).filter keepLine).map pyStrip := by
      unfold splitDefinition
      rw [hfilter, List.map_append, List.map_cons]
    rw [hsd]
    rw [show ((raw.take p).filter keepLine).length
        = (((raw.take p).filter keepLine).map pyStrip).length from
        (List.length_map _ _).symm]
    rw [List.get?_append_right (le_refl _)]
    simp
  · have hmem : l ∈ raw.take p := by
      have hg : (raw.take p).get? j = some l := by
        rw [List.get?_take hjp]
        exact hgetj
      exact List.get?_mem hg
    have hlt : ((raw.take p).filter keepLine).length
        < (raw.take p).length :=
      List.length_filter_lt_length_iff_exists.mpr
        ⟨l, hmem, by simp [hkeepj]⟩
    have htk : (raw.take p).length = p := by
      rw [List.length_take]
      omega
    omega

/-- Witness for C10: in the raw body `["", "# note", "user hi"]` the
command line sits at 1-based position 3 but is logical line 1. -/
theorem logical_line_numbering_witness :
    (splitDefinition ["", "# note", "user hi"]).get?
        (((["", "# note", "user hi"] : List String).take 2).filter
          keepLine).length
      = some (pyStrip "user hi")
    ∧ ((((["", "# note", "user hi"] : List String).take 2).filter
          keepLine).length + 1) < 2 + 1 :=
  logical_line_numbering ["", "# note", "user hi"] 2 (by decide)
    (by decide) ⟨0, "", by decide, rfl, by decide⟩

end Gptcmd
